import Mathlib

/-!
# Verification development for `storage/adage.go`

A shallow embedding of package `storage`: the `Adage` record, its two gob codec
variants (`Serialize`/`DeserializeAdage`, which share one encoder, one decoder,
one buffer and one mutex, and `SerializeDirect`/`DeserializeAdageDirect`, which
build fresh ones), and the two store operations `Insert` and `GetAdage` that run
inside one bolt transaction each.

The collaborators the package imports are modelled by what they are documented
to do:

* `encoding/gob` at the level of its messages. A gob stream is a sequence of
  length-framed messages; a message either defines a type id or carries a value
  of an already defined type id. A byte sequence is represented by the messages
  it frames (`Wire`), so the empty byte sequence is the empty list.
* `bolt` as a tree of buckets whose entries are ordered by key.
* `sync.Mutex` as a held/free flag; `Lock` on a held mutex never returns.
* `math/rand` and `uuid.NewV1` as inputs of the operation that consults them.
-/

namespace Storage

/-! ## Results of running Go code -/

/-- How a call ends: it returns a value, it panics, or it waits forever on a
mutex that nobody will release. -/
inductive Outcome (α : Type) where
  | ret (a : α)
  | fault
  | blocked
  deriving DecidableEq, Repr

/-- The error values that can reach the callers of this package. -/
inductive Error where
  /-- io.EOF: the decoder found no message at all. -/
  | eof
  /-- io.ErrUnexpectedEOF: type definitions were read but no value followed. -/
  | unexpectedEOF
  /-- gob: duplicate type received. -/
  | duplicateType
  /-- gob: unknown type id or corrupted data. -/
  | badType
  /-- A message that does not parse. -/
  | corruptData
  /-- Time.MarshalBinary: unexpected zone offset. -/
  | zoneUnexpectedOffset
  /-- bolt.ErrBucketNameRequired. -/
  | bucketNameRequired
  /-- bolt.ErrIncompatibleValue. -/
  | incompatibleValue
  /-- bolt.ErrKeyRequired. -/
  | keyRequired
  /-- bolt.ErrKeyTooLarge. -/
  | keyTooLarge
  /-- bolt.ErrBucketExists. -/
  | bucketExists
  deriving DecidableEq, Repr

/-! ## Record Entity -/

/-- Go `[]byte`: a sequence of bytes. -/
abbrev Bytes := List Nat

/-- Go `string`: an immutable sequence of bytes; `[]byte(s)` is the same
sequence. -/
abbrev GoString := List Nat

/-- The type `uuid.UUID`, a `[16]byte`. -/
structure UUID where
  bytes : List Nat
  size_eq : bytes.length = 16
  deriving DecidableEq, Repr

/-- The zero array, `uuid.Nil`. -/
def UUID.Nil : UUID := ⟨List.replicate 16 0, by decide⟩

/-- The method `UUID.Bytes`: the sixteen bytes as a slice. -/
def UUID.Bytes (u : UUID) : Bytes := u.bytes

/-- Zero test of reflection on an array: every element is zero. -/
def UUID.isZero (u : UUID) : Bool := u.bytes.all (fun b => b == 0)

/-- Go `time.Time`, up to what `MarshalBinary` reads of it: the instant
(`sec` seconds since January 1 of year 1, UTC, and `nsec` nanoseconds) and the
location, `none` for UTC and `some off` for a zone `off` seconds east of UTC.
Zone names and the monotonic clock reading are not represented. -/
structure Time where
  sec : Int
  nsec : Int
  loc : Option Int
  deriving DecidableEq, Repr

/-- The zero `time.Time`. -/
def Time.zero : Time := ⟨0, 0, none⟩

/-- Zero test of reflection on the struct `time.Time`. -/
def Time.isZero (t : Time) : Bool := t.sec == 0 && t.nsec == 0 && t.loc == none

/-- Adage is an entry in the database. A slice is `none` when nil and
`some xs` when non-nil. -/
structure Adage where
  ID : UUID
  Body : GoString
  Tags : Option (List GoString)
  Author : GoString
  Source : GoString
  CreatedAt : Time
  UpdatedAt : Time
  deriving DecidableEq, Repr

/-- What `new(Adage)` points to: every field zero, `Tags` nil. -/
def Adage.zero : Adage :=
  { ID := UUID.Nil, Body := [], Tags := none, Author := [], Source := [],
    CreatedAt := Time.zero, UpdatedAt := Time.zero }

/-- Elements visited by `for _, tag := range adage.Tags`. -/
def Adage.tagList (a : Adage) : List GoString := a.Tags.getD []

/-! ## `time.Time` as a gob value -/

/-- Content of the bytes `Time.MarshalBinary` produces: seconds, nanoseconds,
the zone offset in minutes, where `-1` stands for UTC, and, in the version 2
layout only, one more byte holding the seconds of the zone offset. -/
structure TimeBlob where
  sec : Int
  nsec : Int
  offsetMin : Int
  offsetSec : Option Nat
  deriving DecidableEq, Repr

/-- The method `Time.MarshalBinary` (which `Time.GobEncode` calls), as of
Go 1.20: an offset that is not a whole number of minutes selects the version 2
layout, whose last byte is `byte(int8(offset % 60))`; then `offset /= 60` and
the minutes are checked. Go's `/` and `%` truncate toward zero. -/
def Time.MarshalBinary (t : Time) : Except Error TimeBlob :=
  match t.loc with
  | none => .ok ⟨t.sec, t.nsec, -1, none⟩
  | some offset =>
    let offsetSec : Option Nat :=
      if Int.tmod offset 60 ≠ 0 then some (Int.toNat (Int.tmod offset 60 % 256)) else none
    let offset := Int.tdiv offset 60
    if offset < -32768 ∨ offset = -1 ∨ offset > 32767 then .error .zoneUnexpectedOffset
    else .ok ⟨t.sec, t.nsec, offset, offsetSec⟩

/-- The method `Time.UnmarshalBinary` (which `Time.GobDecode` calls) on
well-formed bytes: the offset is the minutes times 60, plus, in the version 2
layout, `int(buf[2])`, the last byte read as an unsigned number; an offset of
`-1*60` stands for UTC. -/
def Time.UnmarshalBinary (b : TimeBlob) : Time :=
  let offset : Int := b.offsetMin * 60 + Int.ofNat (b.offsetSec.getD 0)
  if offset = -60 then ⟨b.sec, b.nsec, none⟩
  else ⟨b.sec, b.nsec, some offset⟩

/-! ## `encoding/gob` -/

/-- Type ids of a gob stream, named by the Go type the process-wide registry
assigned them to: the struct `Adage` and the three field types that need a
definition (`uuid.UUID`, `[]string`, `time.Time`); `foreign n` is any other
id. -/
inductive TypeId where
  | adage
  | uuid
  | strings
  | time
  | foreign (n : Nat)
  deriving DecidableEq, Repr

/-- Fields carried by a value message for an `Adage`. A field is absent when
the encoder left it out. -/
structure AdageFields where
  ID : Option UUID
  Body : Option GoString
  Tags : Option (List GoString)
  Author : Option GoString
  Source : Option GoString
  CreatedAt : Option TimeBlob
  UpdatedAt : Option TimeBlob
  deriving DecidableEq, Repr

/-- One message of a gob stream. -/
inductive GobMsg where
  /-- The pair (-id, wire type): defines type `id` for the receiver. -/
  | typeDef (id : TypeId)
  /-- The pair (id, value): a value of type `id`. -/
  | value (id : TypeId) (fields : AdageFields)
  /-- Bytes that do not frame a message. -/
  | corrupt
  deriving DecidableEq, Repr

/-- A byte sequence holding gob data, as the messages it frames. -/
abbrev Wire := List GobMsg

/-- A string field is sent unless it is empty. -/
def sendString (s : GoString) : Option GoString :=
  if s.isEmpty then none else some s

/-- A slice field is sent unless its length is zero, nil or not. -/
def sendSlice (s : Option (List GoString)) : Option (List GoString) :=
  match s with
  | none => none
  | some [] => none
  | some (x :: xs) => some (x :: xs)

/-- A `time.Time` field is sent, through `GobEncode`, unless it is the zero
struct. -/
def sendTime (t : Time) : Except Error (Option TimeBlob) :=
  if t.isZero then .ok none
  else match t.MarshalBinary with
    | .ok b => .ok (some b)
    | .error e => .error e

/-- Encoding of the struct value: fields in declaration order, zero-valued
fields left out, the first failing `GobEncode` aborting the value. -/
def encodeStruct (a : Adage) : Except Error AdageFields :=
  match sendTime a.CreatedAt with
  | .error e => .error e
  | .ok created =>
    match sendTime a.UpdatedAt with
    | .error e => .error e
    | .ok updated =>
      .ok { ID := if a.ID.isZero then none else some a.ID,
            Body := sendString a.Body,
            Tags := sendSlice a.Tags,
            Author := sendString a.Author,
            Source := sendString a.Source,
            CreatedAt := created,
            UpdatedAt := updated }

/-- Decoding of a struct value into a zeroed `Adage`: a field that is present
is stored, an absent one keeps its zero value. A slice of length zero leaves
the nil slice as it is. -/
def decodeStruct (f : AdageFields) : Adage :=
  { ID := f.ID.getD UUID.Nil,
    Body := f.Body.getD [],
    Tags := sendSlice f.Tags,
    Author := f.Author.getD [],
    Source := f.Source.getD [],
    CreatedAt := (f.CreatedAt.map Time.UnmarshalBinary).getD Time.zero,
    UpdatedAt := (f.UpdatedAt.map Time.UnmarshalBinary).getD Time.zero }

/-- A `gob.Encoder`: the types whose definition it has already sent
(its field `sent`). -/
structure Encoder where
  sent : List TypeId
  deriving DecidableEq, Repr

/-- A `gob.Decoder`: the type ids it has received a definition for
(its field `wireType`). -/
structure Decoder where
  wireType : List TypeId
  deriving DecidableEq, Repr

/-- The value `gob.NewEncoder` returns. -/
def NewEncoder : Encoder := ⟨[]⟩

/-- The value `gob.NewDecoder` returns. -/
def NewDecoder : Decoder := ⟨[]⟩

/-- Sending of one type definition unless the encoder sent it before
(`sendActualType`). -/
def Encoder.sendType (enc : Encoder) (w : Wire) (t : TypeId) : Encoder × Wire :=
  if t ∈ enc.sent then (enc, w) else (⟨enc.sent ++ [t]⟩, w ++ [.typeDef t])

/-- Sending of the type descriptor of `Adage` (`sendTypeDescriptor`): when the
struct was not sent yet, its definition and then those of its field types. -/
def Encoder.sendTypeDescriptor (enc : Encoder) (w : Wire) : Encoder × Wire :=
  if TypeId.adage ∈ enc.sent then (enc, w)
  else
    let s0 := enc.sendType w .adage
    let s1 := s0.1.sendType s0.2 .uuid
    let s2 := s1.1.sendType s1.2 .strings
    s2.1.sendType s2.2 .time

/-- The method `Encoder.Encode` applied to an `Adage`, writing to `w`: the type
definitions go out first, then the value; when the value cannot be encoded the
definitions stay written and no value message follows. -/
def Encoder.Encode (enc : Encoder) (w : Wire) (a : Adage) : Encoder × Wire × Option Error :=
  let s := enc.sendTypeDescriptor w
  match encodeStruct a with
  | .error e => (s.1, s.2, some e)
  | .ok fields => (s.1, s.2 ++ [.value .adage fields], none)

/-- Whether the decoder can build the `Adage` decoding engine for a value of
type `id`: the id is the struct's and the struct and its field types are
defined. -/
def Decoder.knows (dec : Decoder) (id : TypeId) : Bool :=
  id == .adage && decide (TypeId.adage ∈ dec.wireType) && decide (TypeId.uuid ∈ dec.wireType)
    && decide (TypeId.strings ∈ dec.wireType) && decide (TypeId.time ∈ dec.wireType)

/-- The method `Decoder.Decode` into a fresh `Adage`, reading from `r`: type
definitions are consumed until a value message arrives (`decodeTypeSequence`);
a definition of an id already defined is an error (`recvType`). Returns the
decoder, the unread rest, the record and the error. `first` tells whether no
message has been read yet in this call. -/
def Decoder.decodeFrom (first : Bool) : Decoder → Wire → Decoder × Wire × Adage × Option Error
  | dec, [] => (dec, [], Adage.zero, some (if first then .eof else .unexpectedEOF))
  | dec, .typeDef id :: rest =>
    if id ∈ dec.wireType then (dec, rest, Adage.zero, some .duplicateType)
    else Decoder.decodeFrom false ⟨dec.wireType ++ [id]⟩ rest
  | dec, .value id fields :: rest =>
    if dec.knows id then (dec, rest, decodeStruct fields, none)
    else (dec, rest, Adage.zero, some .badType)
  | dec, .corrupt :: rest => (dec, rest, Adage.zero, some .corruptData)

/-- The method `Decoder.Decode`. -/
def Decoder.Decode (dec : Decoder) (r : Wire) : Decoder × Wire × Adage × Option Error :=
  Decoder.decodeFrom true dec r

/-! ## Binary Codec -/

/-- The package-level variables `adageBuffer`, `adageEncoder`, `adageDecoder`
and `adageMutex` (`true` when held). Encoder and decoder both work on
`adageBuffer`. -/
structure Codec where
  adageMutex : Bool
  adageBuffer : Wire
  adageEncoder : Encoder
  adageDecoder : Decoder
  deriving DecidableEq, Repr

/-- The package-level variables as initialised at program start. -/
def Codec.init : Codec :=
  { adageMutex := false, adageBuffer := [], adageEncoder := NewEncoder,
    adageDecoder := NewDecoder }

/-- Serialize converts the structure to a byte array for saving into the
database. Returns `(data, err)` and the codec variables after the call. -/
def Serialize (adage : Adage) (c : Codec) : Outcome ((Option Wire × Option Error) × Codec) :=
  -- adageMutex.Lock()
  if c.adageMutex then .blocked
  else
    let c := { c with adageMutex := true }
    -- adageBuffer.Reset()
    let c := { c with adageBuffer := [] }
    -- err := adageEncoder.Encode(*adage)
    let r := c.adageEncoder.Encode c.adageBuffer adage
    let c := { c with adageEncoder := r.1, adageBuffer := r.2.1 }
    match r.2.2 with
    | some err => .ret ((none, some err), c)
    | none =>
      -- data := adageBuffer.Bytes()
      let data := c.adageBuffer
      -- adageMutex.Unlock()
      let c := { c with adageMutex := false }
      .ret ((some data, none), c)

/-- DeserializeAdage converts a byte array into an Adage struct. Returns
`(adage, err)`, where `adage` is never nil, and the codec variables after the
call. -/
def DeserializeAdage (data : Wire) (c : Codec) : Outcome ((Adage × Option Error) × Codec) :=
  -- adageMutex.Lock()
  if c.adageMutex then .blocked
  else
    let c := { c with adageMutex := true }
    -- adageBuffer.Reset(); adageBuffer.Write(data)
    let c := { c with adageBuffer := [] }
    let c := { c with adageBuffer := c.adageBuffer ++ data }
    -- err := adageDecoder.Decode(adage)
    let r := c.adageDecoder.Decode c.adageBuffer
    let c := { c with adageDecoder := r.1, adageBuffer := r.2.1 }
    -- adageMutex.Unlock()
    let c := { c with adageMutex := false }
    .ret ((r.2.2.1, r.2.2.2), c)

/-- SerializeDirect is another implementation of Serialize that doesn't reuse
cached components. -/
def SerializeDirect (adage : Adage) : Option Wire × Option Error :=
  let buffer : Wire := []
  let encoder := NewEncoder
  let r := encoder.Encode buffer adage
  match r.2.2 with
  | some err => (none, some err)
  | none => (some r.2.1, none)

/-- DeserializeAdageDirect is another implementation of DeserializeAdage that
doesn't reuse cached components. -/
def DeserializeAdageDirect (data : Wire) : Adage × Option Error :=
  let buffer : Wire := data
  let decoder := NewDecoder
  let r := decoder.Decode buffer
  (r.2.2.1, r.2.2.2)

/-! ## The bolt store -/

/-- What a bucket stores under a key: a plain value, or a nested bucket with its
own entries. -/
inductive Node where
  | leaf (value : Wire)
  | bucket (entries : List (Bytes × Node))

/-- A bolt bucket: its entries in cursor order, which is ascending key order
(`bytes.Compare`) for every bucket bolt builds. -/
abbrev Bucket := List (Bytes × Node)

/-- A bolt database: the root bucket of its last committed transaction. -/
abbrev DB := Bucket

/-- The cursor method `seek`: the first entry whose key is not below `key`. -/
def Bucket.seek (b : Bucket) (key : Bytes) : Option (Bytes × Node) :=
  b.find? (fun e => decide (key ≤ e.1))

/-- The node method `put`: the entry goes to the first position whose key is
not below `key`, replacing the entry there when the keys are equal. -/
def Bucket.put : Bucket → Bytes → Node → Bucket
  | [], key, n => [(key, n)]
  | (k, m) :: rest, key, n =>
    if key ≤ k then
      if k = key then (key, n) :: rest else (key, n) :: (k, m) :: rest
    else (k, m) :: Bucket.put rest key n

/-- The method `Bucket.Bucket`: the nested bucket called `name`, nil when the
key is absent or holds a plain value. -/
def Bucket.openBucket (b : Bucket) (name : Bytes) : Option Bucket :=
  match b.seek name with
  | some (k, .bucket entries) => if k = name then some entries else none
  | _ => none

/-- The method `Bucket.Get`: the value under `key`, nil when the key is absent
or is a nested bucket. -/
def Bucket.Get (b : Bucket) (key : Bytes) : Option Wire :=
  match b.seek key with
  | some (k, .leaf v) => if k = key then some v else none
  | _ => none

/-- Keys met by `for k, _ := c.First(); k != nil; k, _ = c.Next()`. -/
def Bucket.keys (b : Bucket) : List Bytes := b.map Prod.fst

/-- A bucket handle shares the tree of its transaction: what was written
through the handle of the child called `name` is what the parent holds. -/
def Bucket.setChild (b : Bucket) (name : Bytes) (child : Bucket) : Bucket :=
  b.put name (.bucket child)

/-- The method `Bucket.CreateBucket` in a writable transaction. Returns the
bucket after the call and the new child. -/
def Bucket.CreateBucket (b : Bucket) (key : Bytes) : Except Error (Bucket × Bucket) :=
  if key.length = 0 then .error .bucketNameRequired
  else match b.seek key with
    | some (k, .bucket _) =>
      if k = key then .error .bucketExists else .ok (b.put key (.bucket []), [])
    | some (k, .leaf _) =>
      if k = key then .error .incompatibleValue else .ok (b.put key (.bucket []), [])
    | none => .ok (b.put key (.bucket []), [])

/-- The method `Bucket.CreateBucketIfNotExists` (and `Tx.CreateBucketIfNotExists`
on the root bucket). -/
def Bucket.CreateBucketIfNotExists (b : Bucket) (key : Bytes) : Except Error (Bucket × Bucket) :=
  match b.CreateBucket key with
  | .error .bucketExists => .ok (b, (b.openBucket key).getD [])
  | .error err => .error err
  | .ok r => .ok r

/-- The constant `bolt.MaxKeySize`. -/
def MaxKeySize : Nat := 32768

/-- The method `Bucket.Put` in a writable transaction. The length of a value is
not represented, so the `MaxValueSize` test is left out. -/
def Bucket.Put (b : Bucket) (key : Bytes) (value : Wire) : Except Error Bucket :=
  if key.length = 0 then .error .keyRequired
  else if key.length > MaxKeySize then .error .keyTooLarge
  else match b.seek key with
    | some (k, .bucket _) =>
      if k = key then .error .incompatibleValue else .ok (b.put key (.leaf value))
    | _ => .ok (b.put key (.leaf value))

/-- The method `DB.Update` on an open, writable database: the function runs on
the transaction's view of the root bucket; when it returns nil the transaction
commits, when it returns an error the transaction rolls back. The state `σ`
is whatever the function changes outside the database. -/
def Update {σ : Type} (db : DB) (fn : Bucket → Outcome ((Option Error × Bucket) × σ)) :
    Outcome ((Option Error × DB) × σ) :=
  match fn db with
  | .ret ((none, tx), s) => .ret ((none, tx), s)
  | .ret ((some err, _), s) => .ret ((some err, db), s)
  | .fault => .fault
  | .blocked => .blocked

/-- The method `DB.View` on an open database: the function runs on the root
bucket and its error is returned. -/
def View {α : Type} (db : DB) (fn : Bucket → Outcome α) : Outcome α :=
  fn db

/-- The function `rand.Intn`: it panics when `n <= 0` and otherwise returns a
number in `[0, n)`; `draw` is the state of the generator, and every number of
`[0, n)` is `draw % n` for some `draw`. -/
def randIntn (n : Nat) (draw : Nat) : Option Nat :=
  if n ≤ 0 then none else some (draw % n)

/-! ## Record Store -/

/-- Modelled from the spec: the package constant `adagesKey`, declared outside
`adage.go`; the primary partition name is the fixed constant "adages". -/
def adagesKey : Bytes := [97, 100, 97, 103, 101, 115]

/-- Modelled from the spec: the package constant `tagsKey`, declared outside
`adage.go`; the tag-index root partition name is the fixed constant "tags". -/
def tagsKey : Bytes := [116, 97, 103, 115]

/-- GetAdage gets a random adage from the database. `draw` feeds `rand.Intn`.
Returns `(adage, err)`, `adage` being `none` for the nil pointer. -/
def GetAdage (db : DB) (draw : Nat) (c : Codec) :
    Outcome ((Option Adage × Option Error) × Codec) :=
  View db (fun tx =>
    match tx.openBucket adagesKey with
    | none =>
      -- "Adages bucket does not exist in the database"; return nil
      .ret ((none, none), c)
    | some bucket =>
      let keys := bucket.keys
      -- choice := keys[rand.Intn(len(keys))]
      match randIntn keys.length draw with
      | none => .fault
      | some i =>
        match keys.get? i with
        | none => .fault
        | some choice =>
          -- adage, err = DeserializeAdage(bucket.Get(choice))
          match DeserializeAdage ((bucket.Get choice).getD []) c with
          | .ret ((adage, err), c) => .ret ((some adage, err), c)
          | .fault => .fault
          | .blocked => .blocked)

/-- The loop `for _, tag := range adage.Tags` of `Insert`, run on the tags
bucket: the error of `CreateBucketIfNotExists` ends the function, the error of
`index.Put` is assigned and never read. -/
def indexTags (id : UUID) : List GoString → Bucket → Option Error × Bucket
  | [], tagsBucket => (none, tagsBucket)
  | tag :: rest, tagsBucket =>
    match tagsBucket.CreateBucketIfNotExists tag with
    | .error err => (some err, tagsBucket)
    | .ok (tagsBucket, index) =>
      -- err = index.Put(id.Bytes(), []byte{})
      match index.Put id.Bytes [] with
      | .error _ => indexTags id rest tagsBucket
      | .ok index => indexTags id rest (tagsBucket.setChild tag index)

/-- The function `Insert` hands to `db.Update`. -/
def insertTx (adage : Adage) (id : UUID) (c : Codec) (tx : Bucket) :
    Outcome ((Option Error × Bucket) × Codec) :=
  match tx.CreateBucketIfNotExists adagesKey with
  | .error err => .ret ((some err, tx), c)
  | .ok (tx, dataBucket) =>
    match Serialize adage c with
    | .blocked => .blocked
    | .fault => .fault
    | .ret ((_, some err), c) => .ret ((some err, tx), c)
    | .ret ((data, none), c) =>
      match dataBucket.Put id.Bytes (data.getD []) with
      | .error err => .ret ((some err, tx), c)
      | .ok dataBucket =>
        let tx := tx.setChild adagesKey dataBucket
        -- Update our tags indexes
        match tx.CreateBucketIfNotExists tagsKey with
        | .error err => .ret ((some err, tx), c)
        | .ok (tx, tagsBucket) =>
          match indexTags id adage.tagList tagsBucket with
          | (some err, tagsBucket) => .ret ((some err, tx.setChild tagsKey tagsBucket), c)
          | (none, tagsBucket) => .ret ((none, tx.setChild tagsKey tagsBucket), c)

/-- Insert the adage to the database. `id` is the value `uuid.NewV1()`
returns. Returns the error and the database after the call. -/
def Insert (adage : Adage) (db : DB) (id : UUID) (c : Codec) :
    Outcome ((Option Error × DB) × Codec) :=
  Update db (insertTx adage id c)

/-! ## Notions used to state the properties -/

/-- The node a bucket holds under exactly `key`: what `seek` finds, when its key
equals `key`. -/
def Bucket.lookup (b : Bucket) (key : Bytes) : Option Node :=
  match b.seek key with
  | some (k, n) => if k = key then some n else none
  | none => none

/-- The value of a returning call, `none` for a call that panics or blocks. -/
def Outcome.value? {α : Type} : Outcome α → Option α
  | .ret a => some a
  | .fault => none
  | .blocked => none

/-- Whether `MarshalBinary` accepts the time. -/
def Time.marshals (t : Time) : Bool :=
  match t.MarshalBinary with
  | .ok _ => true
  | .error _ => false

/-- A record whose two timestamps `MarshalBinary` accepts. -/
def Adage.encodable (a : Adage) : Prop :=
  a.CreatedAt.marshals = true ∧ a.UpdatedAt.marshals = true

/-- The time a receiver rebuilds: the time itself when it is the zero time
(gob leaves it out), and otherwise what `UnmarshalBinary` makes of the bytes of
`MarshalBinary`. -/
def Time.received (t : Time) : Time :=
  if t.isZero then t
  else match t.MarshalBinary with
    | .ok b => Time.UnmarshalBinary b
    | .error _ => t

/-- The location is UTC, or a zone whose offset has no negative seconds part
(`offset % 60 >= 0`): every offset east of UTC and every offset of whole
minutes. -/
def Time.keepsOffset (t : Time) : Bool :=
  match t.loc with
  | none => true
  | some offset => decide (0 ≤ Int.tmod offset 60)

/-- The record a receiver rebuilds: a `Tags` slice of length zero replaced by
the nil slice, the two timestamps as `Time.received` gives them, and every
other field kept. -/
def Adage.received (a : Adage) : Adage :=
  { a with Tags := sendSlice a.Tags, CreatedAt := a.CreatedAt.received,
           UpdatedAt := a.UpdatedAt.received }

/-- No bucket of the tag index of `db` holds a nested bucket under `key`: the
identifier whose bytes are `key` is not in use as a bucket name there. -/
def DB.indexFreeAt (db : DB) (key : Bytes) : Prop :=
  ∀ (t : Bytes) (entries : Bucket),
    ((db.openBucket tagsKey).getD []).lookup t = some (.bucket entries) →
    ∀ nested : Bucket, Bucket.lookup entries key ≠ some (.bucket nested)

/-- No bucket of the tag index holds a nested bucket at all: under every tag,
every key holds a plain value. -/
def DB.indexPlain (db : DB) : Prop :=
  ∀ key : Bytes, DB.indexFreeAt db key

/-- The shared encoder and decoder are in step and the mutex is free: either
the encoder has sent nothing and the decoder knows none of the four types, or
the encoder has sent the `Adage` type and the decoder knows it with its field
types. Holds at program start and after every `Serialize` whose bytes went
through `DeserializeAdage` before the next `Serialize`. -/
def Codec.inStep (c : Codec) : Prop :=
  c.adageMutex = false ∧
    ((c.adageEncoder.sent = [] ∧
        ∀ t ∈ [TypeId.adage, TypeId.uuid, TypeId.strings, TypeId.time],
          t ∉ c.adageDecoder.wireType) ∨
      (TypeId.adage ∈ c.adageEncoder.sent ∧ c.adageDecoder.knows .adage = true))

/-- A tag whose sub-bucket cannot be created in the tags bucket of `db` (the
empty bucket when `db` has none yet): `CreateBucketIfNotExists` fails on it. -/
def faultyTag (db : DB) (tag : GoString) : Bool :=
  match ((db.openBucket tagsKey).getD []).CreateBucketIfNotExists tag with
  | .error _ => true
  | .ok _ => false

/-! ## Concrete inputs -/

/-- The string "haste makes waste". -/
def hasteMakesWaste : GoString :=
  [104, 97, 115, 116, 101, 32, 109, 97, 107, 101, 115, 32, 119, 97, 115, 116, 101]

/-- The string "wisdom". -/
def wisdom : GoString := [119, 105, 115, 100, 111, 109]

/-- The string "caution". -/
def caution : GoString := [99, 97, 117, 116, 105, 111, 110]

/-- The string "unknown". -/
def unknown : GoString := [117, 110, 107, 110, 111, 119, 110]

/-- The record of the concrete scenario:
`Adage{Body: "haste makes waste", Tags: []string{"wisdom", "caution"}, Author: "unknown"}`. -/
def haste : Adage :=
  { Adage.zero with Body := hasteMakesWaste, Tags := some [wisdom, caution], Author := unknown }

/-- A version 1 identifier, as `uuid.NewV1` returns them. -/
def sampleID : UUID :=
  ⟨[0x6b, 0xa7, 0xb8, 0x10, 0x9d, 0xad, 0x11, 0xd1, 0x80, 0xb4, 0x00, 0xc0, 0x4f, 0xd4, 0x30, 0xc8],
    by decide⟩

/-- The record `Adage{Body: "haste makes waste", Tags: []string{}}`: a `Tags`
slice that is empty and not nil. -/
def emptyTags : Adage :=
  { Adage.zero with Body := hasteMakesWaste, Tags := some [] }

/-- A record whose `CreatedAt` is one second into year 1 in
`time.FixedZone("", -60)`, one minute west of UTC. -/
def minuteWest : Adage :=
  { Adage.zero with Body := hasteMakesWaste, CreatedAt := ⟨1, 0, some (-60)⟩ }

/-- A record whose `CreatedAt` is one second into year 1 in
`time.FixedZone("", -150)`, two and a half minutes west of UTC. -/
def secondsWest : Adage :=
  { Adage.zero with Body := hasteMakesWaste, CreatedAt := ⟨1, 0, some (-150)⟩ }

/-- The record of the concrete scenario with the tags "wisdom" and "". -/
def emptyTagLast : Adage :=
  { haste with Tags := some [wisdom, []] }

/-- A database without any bucket. -/
def emptyDB : DB := []

/-- A database whose bucket "adages" exists and holds no key. -/
def emptyAdagesDB : DB := [(adagesKey, .bucket [])]

/-- A database in which the bucket "tags"/"wisdom" holds, under the bytes of
`sampleID`, a nested bucket. -/
def nestedIndexDB : DB :=
  [(tagsKey, .bucket [(wisdom, .bucket [(sampleID.Bytes, .bucket [])])])]

/-- The type ids an `Adage` needs, in the order their definitions are sent. -/
def adageTypes : List TypeId := [.adage, .uuid, .strings, .time]

/-- The four type definition messages that precede the first `Adage` an encoder
sends. -/
def adageTypeDefs : Wire := [.typeDef .adage, .typeDef .uuid, .typeDef .strings, .typeDef .time]

/-- The value message of `haste`: the zero-valued `ID`, `Source`, `CreatedAt`
and `UpdatedAt` are left out. -/
def hasteValue : GobMsg :=
  .value .adage
    { ID := none, Body := some hasteMakesWaste, Tags := some [wisdom, caution],
      Author := some unknown, Source := none, CreatedAt := none, UpdatedAt := none }

/-- The codec variables after the shared encoder has sent the types and the
shared decoder has not received them; `buffer` is what `adageBuffer` holds. -/
def encoderAhead (buffer : Wire) : Codec :=
  { adageMutex := false, adageBuffer := buffer, adageEncoder := ⟨adageTypes⟩,
    adageDecoder := ⟨[]⟩ }

/-- The codec variables after the shared decoder has received the types. -/
def decoderTaught (buffer : Wire) (sent : List TypeId) : Codec :=
  { adageMutex := false, adageBuffer := buffer, adageEncoder := ⟨sent⟩,
    adageDecoder := ⟨adageTypes⟩ }

/-- The codec variables after `Serialize` failed on the first record of the
process: the type definitions are sent and the mutex is held. -/
def heldCodec : Codec :=
  { adageMutex := true, adageBuffer := adageTypeDefs, adageEncoder := ⟨adageTypes⟩,
    adageDecoder := ⟨[]⟩ }

/-- The database after the first `Insert` of a process stored `haste` under
`sampleID` in the empty database. -/
def hasteDB : DB :=
  [(adagesKey, .bucket [(sampleID.Bytes, .leaf (adageTypeDefs ++ [hasteValue]))]),
   (tagsKey, .bucket [(caution, .bucket [(sampleID.Bytes, .leaf [])]),
                       (wisdom, .bucket [(sampleID.Bytes, .leaf [])])])]

/-- The database `nestedIndexDB` after `Insert` stored `haste` under `sampleID`:
"tags"/"wisdom" is as it was. -/
def nestedIndexAfter : DB :=
  [(adagesKey, .bucket [(sampleID.Bytes, .leaf (adageTypeDefs ++ [hasteValue]))]),
   (tagsKey, .bucket [(caution, .bucket [(sampleID.Bytes, .leaf [])]),
                       (wisdom, .bucket [(sampleID.Bytes, .bucket [])])])]

/-! ## The gob value of a record -/

theorem UUID.eq_Nil_of_isZero (u : UUID) (h : u.isZero = true) : u = UUID.Nil := by
  obtain ⟨bytes, hlen⟩ := u
  have hall : ∀ b ∈ bytes, b = 0 := by
    simpa [UUID.isZero, List.all_eq_true] using h
  have hrep : bytes = List.replicate 16 0 := by
    rw [← hlen]
    exact List.eq_replicate_of_mem hall
  subst hrep
  rfl

theorem Time.eq_zero_of_isZero (t : Time) (h : t.isZero = true) : t = Time.zero := by
  obtain ⟨sec, nsec, loc⟩ := t
  simp [Time.isZero] at h
  obtain ⟨⟨h1, h2⟩, h3⟩ := h
  subst h1 h2 h3
  rfl

/-- What `MarshalBinary` writes for a time that is UTC or whose zone offset
has no negative seconds part, `UnmarshalBinary` reads back as the same time. -/
theorem Time.UnmarshalBinary_MarshalBinary (t : Time) (b : TimeBlob)
    (h : t.MarshalBinary = .ok b) (hkeeps : t.keepsOffset = true) :
    Time.UnmarshalBinary b = t := by
  obtain ⟨sec, nsec, loc⟩ := t
  cases loc with
  | none =>
    simp [Time.MarshalBinary] at h
    subst h
    rfl
  | some offset =>
    simp only [Time.MarshalBinary] at h
    split at h
    · cases h
    · rename_i hrange
      cases h
      have hne : Int.tdiv offset 60 ≠ -1 := fun hc => hrange (Or.inr (Or.inl hc))
      have hnonneg : 0 ≤ Int.tmod offset 60 := by
        simpa [Time.keepsOffset] using hkeeps
      have hlt : Int.tmod offset 60 < 60 := Int.tmod_lt_of_pos offset (by decide)
      have hsplit : Int.tdiv offset 60 * 60 + Int.tmod offset 60 = offset :=
        Int.tdiv_add_tmod' offset 60
      have hback : Int.tdiv offset 60 * 60 +
          Int.ofNat ((if Int.tmod offset 60 ≠ 0
            then some (Int.toNat (Int.tmod offset 60 % 256)) else none).getD 0) = offset := by
        by_cases hz : Int.tmod offset 60 = 0
        · simp only [hz, ne_eq, not_true_eq_false, if_false, Option.getD_none]
          rw [hz] at hsplit
          simpa using hsplit
        · have hmod : Int.tmod offset 60 % 256 = Int.tmod offset 60 :=
            Int.emod_eq_of_lt hnonneg (by omega)
          simp only [ne_eq, hz, not_false_eq_true, if_true, Option.getD_some, hmod,
            Int.ofNat_eq_coe, Int.toNat_of_nonneg hnonneg]
          exact hsplit
      have hne60 : offset ≠ -60 := by
        intro hc
        subst hc
        exact hne (by decide)
      simp only [Time.UnmarshalBinary, hback, hne60, if_false]

/-- A time that marshals and is UTC or has no negative seconds part in its zone
offset is received as it was sent. -/
theorem Time.received_of_keepsOffset (t : Time) (hkeeps : t.keepsOffset = true) :
    t.received = t := by
  unfold Time.received
  by_cases hz : t.isZero = true
  · simp [hz]
  · cases hm : t.MarshalBinary with
    | error e => simp [hz]
    | ok b =>
      simp only [hz, Bool.false_eq_true, if_false]
      exact Time.UnmarshalBinary_MarshalBinary t b hm hkeeps

theorem sendTime_of_marshals (t : Time) (h : t.marshals = true) :
    ∃ b, sendTime t = .ok b ∧ (b.map Time.UnmarshalBinary).getD Time.zero = t.received := by
  unfold sendTime Time.received
  by_cases hz : t.isZero = true
  · exact ⟨none, by simp [hz], by simpa [hz] using (Time.eq_zero_of_isZero t hz).symm⟩
  · cases hm : t.MarshalBinary with
    | error e => simp [Time.marshals, hm] at h
    | ok b => exact ⟨some b, by simp [hz], by simp [hz]⟩

theorem sendSlice_sendSlice (s : Option (List GoString)) : sendSlice (sendSlice s) = sendSlice s := by
  rcases s with _ | ⟨_ | ⟨x, xs⟩⟩ <;> rfl

theorem sendString_getD (s : GoString) : (sendString s).getD [] = s := by
  cases s <;> rfl

/-- An encodable record has a value message, and decoding that message yields
the record as received. -/
theorem decodeStruct_encodeStruct (a : Adage) (h : a.encodable) :
    ∃ f, encodeStruct a = .ok f ∧ decodeStruct f = a.received := by
  obtain ⟨b1, hs1, hb1⟩ := sendTime_of_marshals a.CreatedAt h.1
  obtain ⟨b2, hs2, hb2⟩ := sendTime_of_marshals a.UpdatedAt h.2
  have henc : encodeStruct a = .ok
      { ID := if a.ID.isZero then none else some a.ID, Body := sendString a.Body,
        Tags := sendSlice a.Tags, Author := sendString a.Author,
        Source := sendString a.Source, CreatedAt := b1, UpdatedAt := b2 } := by
    simp only [encodeStruct, hs1, hs2]
  refine ⟨_, henc, ?_⟩
  obtain ⟨ID, Body, Tags, Author, Source, CreatedAt, UpdatedAt⟩ := a
  simp only [decodeStruct, Adage.received, sendSlice_sendSlice, sendString_getD] at *
  rw [hb1, hb2]
  by_cases hz : ID.isZero = true
  · have hnil := UUID.eq_Nil_of_isZero ID hz
    subst hnil
    rfl
  · simp [hz]

/-- A record that is not encodable has no value message. -/
theorem encodeStruct_error_of_not_encodable (a : Adage) (h : ¬ a.encodable) :
    ∃ e, encodeStruct a = .error e := by
  unfold Adage.encodable at h
  unfold encodeStruct sendTime
  by_cases h1 : a.CreatedAt.marshals = true
  · have h2 : a.UpdatedAt.marshals ≠ true := fun hc => h ⟨h1, hc⟩
    have hz2 : a.UpdatedAt.isZero = false := by
      by_contra hc
      have := Time.eq_zero_of_isZero a.UpdatedAt (by simpa using hc)
      rw [this] at h2
      exact h2 rfl
    cases hm2 : a.UpdatedAt.MarshalBinary with
    | ok b => simp [Time.marshals, hm2] at h2
    | error e =>
      simp only [hz2]
      split <;> exact ⟨_, rfl⟩
  · have hz1 : a.CreatedAt.isZero = false := by
      by_contra hc
      have := Time.eq_zero_of_isZero a.CreatedAt (by simpa using hc)
      rw [this] at h1
      exact h1 rfl
    cases hm1 : a.CreatedAt.MarshalBinary with
    | ok b => simp [Time.marshals, hm1] at h1
    | error e =>
      simp only [hz1]
      exact ⟨_, rfl⟩

/-! ## Round trip -/

theorem SerializeDirect_of_encodeStruct (a : Adage) (f : AdageFields)
    (h : encodeStruct a = .ok f) :
    SerializeDirect a = (some (adageTypeDefs ++ [.value .adage f]), none) := by
  simp only [SerializeDirect, Encoder.Encode, h]
  rfl

theorem DeserializeAdageDirect_self_contained (f : AdageFields) :
    DeserializeAdageDirect (adageTypeDefs ++ [.value .adage f]) = (decodeStruct f, none) :=
  rfl

theorem Serialize_fresh_encoder (a : Adage) (f : AdageFields) (c : Codec)
    (h : encodeStruct a = .ok f) (hfree : c.adageMutex = false)
    (hsent : c.adageEncoder.sent = []) :
    Serialize a c = .ret ((some (adageTypeDefs ++ [.value .adage f]), none),
      { adageMutex := false, adageBuffer := adageTypeDefs ++ [.value .adage f],
        adageEncoder := ⟨adageTypes⟩, adageDecoder := c.adageDecoder }) := by
  obtain ⟨m, buf, ⟨sent⟩, dec⟩ := c
  simp only at hfree hsent
  subst hfree hsent
  simp only [Serialize, Encoder.Encode, h]
  rfl

theorem Serialize_types_sent (a : Adage) (f : AdageFields) (c : Codec)
    (h : encodeStruct a = .ok f) (hfree : c.adageMutex = false)
    (hsent : TypeId.adage ∈ c.adageEncoder.sent) :
    Serialize a c = .ret ((some [.value .adage f], none),
      { c with adageBuffer := [.value .adage f] }) := by
  obtain ⟨m, buf, ⟨sent⟩, dec⟩ := c
  simp only at hfree hsent
  subst hfree
  simp [Serialize, Encoder.Encode, Encoder.sendTypeDescriptor, h, hsent]

theorem DeserializeAdage_teaches (f : AdageFields) (c : Codec) (hfree : c.adageMutex = false)
    (hnew : ∀ t ∈ [TypeId.adage, TypeId.uuid, TypeId.strings, TypeId.time],
      t ∉ c.adageDecoder.wireType) :
    DeserializeAdage (adageTypeDefs ++ [.value .adage f]) c =
      .ret ((decodeStruct f, none),
        { c with adageBuffer := [],
                 adageDecoder := ⟨c.adageDecoder.wireType ++ adageTypes⟩ }) := by
  obtain ⟨m, buf, enc, ⟨w⟩⟩ := c
  simp only at hfree hnew
  subst hfree
  simp only [List.mem_cons, List.mem_singleton, forall_eq_or_imp, forall_eq, List.not_mem_nil,
    false_implies, implies_true, and_true, List.mem_nil_iff] at hnew
  obtain ⟨h1, h2, h3, h4⟩ := hnew
  simp [DeserializeAdage, Decoder.Decode, Decoder.decodeFrom, adageTypeDefs, adageTypes,
    Decoder.knows, h1, h2, h3, h4]

theorem DeserializeAdage_taught (f : AdageFields) (c : Codec) (hfree : c.adageMutex = false)
    (hknows : c.adageDecoder.knows .adage = true) :
    DeserializeAdage [.value .adage f] c =
      .ret ((decodeStruct f, none), { c with adageBuffer := [] }) := by
  obtain ⟨m, buf, enc, ⟨w⟩⟩ := c
  simp only at hfree hknows
  subst hfree
  simp [DeserializeAdage, Decoder.Decode, Decoder.decodeFrom, hknows]

/-- In step, the bytes of `Serialize` go through `DeserializeAdage` and leave
the codec in step. -/
theorem pooled_round_trip (a : Adage) (f : AdageFields) (c : Codec)
    (h : encodeStruct a = .ok f) (hstep : c.inStep) :
    ∃ data c1 c2, Serialize a c = .ret ((some data, none), c1) ∧
      DeserializeAdage data c1 = .ret ((decodeStruct f, none), c2) ∧ c2.inStep := by
  obtain ⟨hfree, hcase⟩ := hstep
  rcases hcase with ⟨hsent, hnew⟩ | ⟨hsent, hknows⟩
  · refine ⟨_, _, _, Serialize_fresh_encoder a f c h hfree hsent,
      DeserializeAdage_teaches f _ rfl hnew, rfl, Or.inr ⟨?_, ?_⟩⟩
    · simp [adageTypes]
    · simp [Decoder.knows, adageTypes]
  · refine ⟨_, _, _, Serialize_types_sent a f c h hfree hsent,
      DeserializeAdage_taught f _ hfree hknows, hfree, Or.inr ⟨hsent, hknows⟩⟩

/-! ## Buckets -/

theorem Bucket.lookup_nil (key : Bytes) : Bucket.lookup [] key = none := rfl

theorem Bucket.lookup_cons (k : Bytes) (m : Node) (rest : Bucket) (key : Bytes) :
    Bucket.lookup ((k, m) :: rest) key =
      if key ≤ k then (if k = key then some m else none) else Bucket.lookup rest key := by
  unfold Bucket.lookup Bucket.seek
  by_cases h : key ≤ k <;> simp [List.find?, h]

/-- After `put`, the key holds the node that was put. -/
theorem Bucket.lookup_put_self (b : Bucket) (key : Bytes) (n : Node) :
    (b.put key n).lookup key = some n := by
  induction b with
  | nil => simp [Bucket.put, Bucket.lookup_cons]
  | cons e rest ih =>
    obtain ⟨k, m⟩ := e
    unfold Bucket.put
    by_cases h : key ≤ k
    · by_cases hk : k = key <;> simp [h, hk, Bucket.lookup_cons]
    · simp [h, Bucket.lookup_cons, ih]

/-- A `put` leaves what every other key holds as it is. -/
theorem Bucket.lookup_put_of_ne (b : Bucket) (key t : Bytes) (n : Node) (hne : t ≠ key) :
    (b.put key n).lookup t = b.lookup t := by
  induction b with
  | nil =>
    simp [Bucket.put, Bucket.lookup_cons, Bucket.lookup_nil, hne.symm]
  | cons e rest ih =>
    obtain ⟨k, m⟩ := e
    unfold Bucket.put
    by_cases h : key ≤ k
    · by_cases hk : k = key
      · subst hk
        simp [Bucket.lookup_cons, hne.symm]
      · simp only [h, hk, if_true, if_false, Bucket.lookup_cons, hne.symm]
        by_cases ht : t ≤ key
        · have htk : t ≤ k := le_trans ht h
          have hkt : k ≠ t := by
            intro hc
            subst hc
            exact hne (le_antisymm ht h)
          simp [ht, htk, hkt]
        · simp [ht]
    · simp only [h, if_false, Bucket.lookup_cons, ih]

theorem Bucket.openBucket_eq (b : Bucket) (name : Bytes) :
    b.openBucket name =
      match b.lookup name with
      | some (.bucket entries) => some entries
      | _ => none := by
  unfold Bucket.openBucket Bucket.lookup
  cases hs : b.seek name with
  | none => rfl
  | some e =>
    obtain ⟨k, m⟩ := e
    cases m <;> by_cases hk : k = name <;> simp [hk]

theorem Bucket.Get_eq (b : Bucket) (key : Bytes) :
    b.Get key =
      match b.lookup key with
      | some (.leaf v) => some v
      | _ => none := by
  unfold Bucket.Get Bucket.lookup
  cases hs : b.seek key with
  | none => rfl
  | some e =>
    obtain ⟨k, m⟩ := e
    cases m <;> by_cases hk : k = key <;> simp [hk]

theorem Bucket.CreateBucketIfNotExists_eq (b : Bucket) (key : Bytes) :
    b.CreateBucketIfNotExists key =
      if key = [] then .error .bucketNameRequired
      else match b.lookup key with
        | some (.leaf _) => .error .incompatibleValue
        | some (.bucket entries) => .ok (b, entries)
        | none => .ok (b.put key (.bucket []), []) := by
  by_cases hkey : key = []
  · subst hkey
    rfl
  · have hlen : ¬ key.length = 0 := by simpa using hkey
    rw [if_neg hkey]
    unfold Bucket.CreateBucketIfNotExists
    rw [Bucket.openBucket_eq]
    unfold Bucket.CreateBucket Bucket.lookup
    rw [if_neg hlen]
    cases hs : b.seek key with
    | none => rfl
    | some e =>
      obtain ⟨k, m⟩ := e
      cases m <;> by_cases hk : k = key <;> simp [hk]

theorem Bucket.Put_eq (b : Bucket) (key : Bytes) (value : Wire) :
    b.Put key value =
      if key.length = 0 then .error .keyRequired
      else if key.length > MaxKeySize then .error .keyTooLarge
      else match b.lookup key with
        | some (.bucket _) => .error .incompatibleValue
        | _ => .ok (b.put key (.leaf value)) := by
  unfold Bucket.Put Bucket.lookup
  by_cases h0 : key.length = 0
  · simp [h0]
  · by_cases h1 : key.length > MaxKeySize
    · simp [h0, h1]
    · rw [if_neg h0, if_neg h1, if_neg h0, if_neg h1]
      cases hs : b.seek key with
      | none => rfl
      | some e =>
        obtain ⟨k, m⟩ := e
        cases m <;> by_cases hk : k = key <;> simp [hk]

/-! ## The transaction of `Insert` -/

theorem adagesKey_ne_tagsKey : adagesKey ≠ tagsKey := by decide

/-- Opening or creating a named bucket fails only on a plain value under the
name; otherwise the bucket is there afterwards and no other key is touched. -/
theorem Bucket.CreateBucketIfNotExists_cases (b : Bucket) (key : Bytes) (hkey : key ≠ []) :
    (∃ v, b.lookup key = some (.leaf v) ∧
        b.CreateBucketIfNotExists key = .error .incompatibleValue) ∨
      (∃ b' child, b.CreateBucketIfNotExists key = .ok (b', child) ∧
        b'.lookup key = some (.bucket child) ∧
        (∀ t, t ≠ key → b'.lookup t = b.lookup t) ∧
        child = (b.openBucket key).getD [] ∧
        ∀ v, b.lookup key ≠ some (.leaf v)) := by
  rw [Bucket.CreateBucketIfNotExists_eq, if_neg hkey, Bucket.openBucket_eq]
  cases hl : b.lookup key with
  | none =>
    right
    exact ⟨_, _, rfl, Bucket.lookup_put_self b key _,
      fun t ht => Bucket.lookup_put_of_ne b key t _ ht, rfl, fun v hv => by cases hv⟩
  | some node =>
    cases node with
    | leaf v => exact Or.inl ⟨v, rfl, rfl⟩
    | bucket entries =>
      right
      exact ⟨_, _, rfl, hl, fun t _ => rfl, rfl, fun v hv => by cases hv⟩

/-- Writing under the sixteen bytes of an identifier fails or puts the value. -/
theorem Bucket.Put_id_cases (b : Bucket) (id : UUID) (value : Wire) :
    (∃ e, b.Put id.Bytes value = .error e) ∨
      b.Put id.Bytes value = .ok (b.put id.Bytes (.leaf value)) := by
  have h0 : ¬ id.Bytes.length = 0 := by simp [UUID.Bytes, id.size_eq]
  have h1 : ¬ id.Bytes.length > MaxKeySize := by simp [UUID.Bytes, id.size_eq, MaxKeySize]
  rw [Bucket.Put_eq, if_neg h0, if_neg h1]
  cases hl : b.lookup id.Bytes with
  | none => exact Or.inr rfl
  | some node =>
    cases node with
    | leaf v => exact Or.inr rfl
    | bucket entries => exact Or.inl ⟨_, rfl⟩

/-- With the mutex free `Serialize` returns, with bytes or with an error. -/
theorem Serialize_cases (a : Adage) (c : Codec) (hfree : c.adageMutex = false) :
    (∃ e c', Serialize a c = .ret ((none, some e), c')) ∨
      (∃ data c', Serialize a c = .ret ((some data, none), c')) := by
  unfold Serialize
  rw [hfree]
  simp only [Bool.false_eq_true, if_false]
  split
  · exact Or.inl ⟨_, _, rfl⟩
  · exact Or.inr ⟨_, _, rfl⟩

/-- With the mutex held `Serialize` never returns. -/
theorem Serialize_blocked (a : Adage) (c : Codec) (hheld : c.adageMutex = true) :
    Serialize a c = .blocked := by
  simp [Serialize, hheld]

/-- With the mutex held, the transaction of `Insert` fails before `Serialize`
or never returns. -/
theorem insertTx_of_held (adage : Adage) (id : UUID) (c : Codec) (db : Bucket)
    (hheld : c.adageMutex = true) :
    insertTx adage id c db = .blocked ∨
      ∃ (e : Error) (tx : Bucket) (c' : Codec),
        insertTx adage id c db = .ret ((some e, tx), c') := by
  unfold insertTx
  rcases Bucket.CreateBucketIfNotExists_cases db adagesKey (by decide) with
    ⟨v, _, herr⟩ | ⟨tx0, dataBucket, hok, _⟩
  · rw [herr]
    exact Or.inr ⟨_, _, _, rfl⟩
  · rw [hok, Serialize_blocked adage c hheld]
    exact Or.inl rfl

/-- The loop over the tags stops with an error at a tag whose name is empty or
taken by a plain value. -/
theorem indexTags_of_faulty (id : UUID) (tags : List GoString) (tag : GoString) :
    ∀ tagsBucket : Bucket, tag ∈ tags →
      (tag = [] ∨ ∃ v, tagsBucket.lookup tag = some (.leaf v)) →
      ∃ e b, indexTags id tags tagsBucket = (some e, b) := by
  induction tags with
  | nil => intro _ hmem; cases hmem
  | cons t rest ih =>
    intro tagsBucket hmem hbad
    unfold indexTags
    by_cases ht : t = []
    · subst ht
      exact ⟨_, _, rfl⟩
    · rcases Bucket.CreateBucketIfNotExists_cases tagsBucket t ht with
        ⟨v, _, herr⟩ | ⟨b', index, hok, hself, hother, _, hnoleaf⟩
      · rw [herr]
        exact ⟨_, _, rfl⟩
      · rw [hok]
        have hne : tag ≠ t := by
          intro hc
          subst hc
          rcases hbad with h | ⟨v, hv⟩
          · exact ht h
          · exact hnoleaf v hv
        have hrest : tag ∈ rest := by
          rcases List.mem_cons.mp hmem with h | h
          · exact absurd h hne
          · exact h
        have hbad' : tag = [] ∨ ∃ v, b'.lookup tag = some (.leaf v) := by
          rcases hbad with h | ⟨v, hv⟩
          · exact Or.inl h
          · exact Or.inr ⟨v, by rw [hother tag hne]; exact hv⟩
        rcases Bucket.Put_id_cases index id [] with ⟨e, hput⟩ | hput
        · simp only [hput]
          exact ih b' hrest hbad'
        · simp only [hput]
          refine ih _ hrest ?_
          rcases hbad' with h | ⟨v, hv⟩
          · exact Or.inl h
          · refine Or.inr ⟨v, ?_⟩
            unfold Bucket.setChild
            rw [Bucket.lookup_put_of_ne _ _ _ _ hne]
            exact hv

/-- With the mutex free, the transaction of `Insert` either returns an error
before the loop over the tags, or has stored the bytes of `Serialize` under the
identifier in "adages" and ends as the loop over the tags decides. -/
theorem insertTx_cases (adage : Adage) (id : UUID) (c : Codec) (db : Bucket)
    (hfree : c.adageMutex = false) :
    (∃ (e : Error) (tx : Bucket) (c' : Codec), insertTx adage id c db = .ret ((some e, tx), c')) ∨
      (∃ (tx : Bucket) (data : Wire) (c' : Codec) (dataBucket : Bucket),
        Serialize adage c = .ret ((some data, none), c') ∧
        tx.lookup adagesKey = some (.bucket (Bucket.put dataBucket id.Bytes (.leaf data))) ∧
        insertTx adage id c db =
          match indexTags id adage.tagList ((db.openBucket tagsKey).getD []) with
          | (some err, tagsBucket) => .ret ((some err, tx.setChild tagsKey tagsBucket), c')
          | (none, tagsBucket) => .ret ((none, tx.setChild tagsKey tagsBucket), c')) := by
  unfold insertTx
  rcases Bucket.CreateBucketIfNotExists_cases db adagesKey (by decide) with
    ⟨v, _, herr⟩ | ⟨tx0, dataBucket, hok, hself0, hother0, _, _⟩
  · rw [herr]
    exact Or.inl ⟨_, _, _, rfl⟩
  · rw [hok]
    rcases Serialize_cases adage c hfree with ⟨e, c', hs⟩ | ⟨data, c', hs⟩
    · simp only [hs]
      exact Or.inl ⟨_, _, _, rfl⟩
    · simp only [hs, Option.getD_some]
      rcases Bucket.Put_id_cases dataBucket id data with ⟨e, hput⟩ | hput
      · simp only [hput]
        exact Or.inl ⟨_, _, _, rfl⟩
      · simp only [hput]
        have htags1 : (tx0.setChild adagesKey (Bucket.put dataBucket id.Bytes (.leaf data))).lookup
            tagsKey = db.lookup tagsKey := by
          unfold Bucket.setChild
          rw [Bucket.lookup_put_of_ne _ _ _ _ adagesKey_ne_tagsKey.symm]
          exact hother0 tagsKey adagesKey_ne_tagsKey.symm
        have hopen1 : (tx0.setChild adagesKey
            (Bucket.put dataBucket id.Bytes (.leaf data))).openBucket tagsKey =
              db.openBucket tagsKey := by
          rw [Bucket.openBucket_eq, Bucket.openBucket_eq, htags1]
        have hdata1 : (tx0.setChild adagesKey
            (Bucket.put dataBucket id.Bytes (.leaf data))).lookup adagesKey =
              some (.bucket (Bucket.put dataBucket id.Bytes (.leaf data))) :=
          Bucket.lookup_put_self _ _ _
        rcases Bucket.CreateBucketIfNotExists_cases
            (tx0.setChild adagesKey (Bucket.put dataBucket id.Bytes (.leaf data))) tagsKey
            (by decide) with
          ⟨v, _, herr⟩ | ⟨tx, tagsBucket, hok2, _, hother2, hchild, _⟩
        · rw [herr]
          exact Or.inl ⟨_, _, _, rfl⟩
        · rw [hok2]
          right
          refine ⟨tx, data, c', dataBucket, rfl, ?_, ?_⟩
          · rw [hother2 adagesKey adagesKey_ne_tagsKey]
            exact hdata1
          · rw [hchild, hopen1]

theorem Serialize_of_encodeStruct_error (a : Adage) (e : Error) (c : Codec)
    (h : encodeStruct a = .error e) (hfree : c.adageMutex = false) :
    ∃ c', Serialize a c = .ret ((none, some e), c') := by
  simp [Serialize, Encoder.Encode, h, hfree]

theorem faultyTag_iff (db : DB) (tag : GoString) :
    faultyTag db tag = true ↔
      tag = [] ∨ ∃ v, ((db.openBucket tagsKey).getD []).lookup tag = some (.leaf v) := by
  unfold faultyTag
  rw [Bucket.CreateBucketIfNotExists_eq]
  by_cases ht : tag = []
  · simp [ht]
  · rw [if_neg ht]
    cases hl : ((db.openBucket tagsKey).getD []).lookup tag with
    | none => simp [ht]
    | some node => cases node <;> simp [ht]

/-- A successful `Insert` ran `Serialize`, stored its bytes under the
identifier in "adages", went through the loop over the tags without error and
committed the transaction with the tags bucket the loop left. -/
theorem Insert_success (adage : Adage) (db db' : DB) (id : UUID) (c c' : Codec)
    (h : Insert adage db id c = .ret ((none, db'), c')) :
    ∃ (tx : Bucket) (data : Wire) (dataBucket tagsBucket : Bucket),
      c.adageMutex = false ∧
      Serialize adage c = .ret ((some data, none), c') ∧
      tx.lookup adagesKey = some (.bucket (Bucket.put dataBucket id.Bytes (.leaf data))) ∧
      indexTags id adage.tagList ((db.openBucket tagsKey).getD []) = (none, tagsBucket) ∧
      db' = tx.setChild tagsKey tagsBucket := by
  have hfree : c.adageMutex = false := by
    by_contra hheld
    have hheld : c.adageMutex = true := by simpa using hheld
    unfold Insert Update at h
    rcases insertTx_of_held adage id c db hheld with hb | ⟨e, tx, c1, hr⟩
    · rw [hb] at h
      cases h
    · rw [hr] at h
      cases h
  unfold Insert Update at h
  rcases insertTx_cases adage id c db hfree with
    ⟨e, tx, c1, htx⟩ | ⟨tx, data, c1, dataBucket, hs, hl, htx⟩
  · rw [htx] at h
    cases h
  · rw [htx] at h
    cases hloop : indexTags id adage.tagList ((db.openBucket tagsKey).getD []) with
    | mk err tagsBucket =>
      rw [hloop] at h
      cases err with
      | some e => cases h
      | none =>
        simp only [Outcome.ret.injEq, Prod.mk.injEq, true_and] at h
        obtain ⟨hdb, hc⟩ := h
        subst hdb hc
        exact ⟨tx, data, dataBucket, tagsBucket, hfree, hs, hl, rfl, rfl⟩

/-- A key that holds a node is one of the keys the cursor meets. -/
theorem Bucket.mem_keys_of_lookup (b : Bucket) (key : Bytes) (n : Node)
    (h : b.lookup key = some n) : key ∈ b.keys := by
  induction b with
  | nil => cases h
  | cons e rest ih =>
    obtain ⟨k, m⟩ := e
    rw [Bucket.lookup_cons] at h
    by_cases hle : key ≤ k
    · by_cases hk : k = key
      · subst hk
        simp [Bucket.keys]
      · simp [hle, hk] at h
    · rw [if_neg hle] at h
      have := ih h
      simp only [Bucket.keys, List.map_cons, List.mem_cons] at this ⊢
      exact Or.inr this

/-! ## Where the index is complete -/

/-- Writing under an identifier succeeds when no nested bucket sits there. -/
theorem Bucket.Put_id_of_no_bucket (b : Bucket) (id : UUID) (value : Wire)
    (h : ∀ entries, b.lookup id.Bytes ≠ some (.bucket entries)) :
    b.Put id.Bytes value = .ok (b.put id.Bytes (.leaf value)) := by
  have h0 : ¬ id.Bytes.length = 0 := by simp [UUID.Bytes, id.size_eq]
  have h1 : ¬ id.Bytes.length > MaxKeySize := by simp [UUID.Bytes, id.size_eq, MaxKeySize]
  rw [Bucket.Put_eq, if_neg h0, if_neg h1]
  cases hl : b.lookup id.Bytes with
  | none => rfl
  | some node =>
    cases node with
    | leaf v => rfl
    | bucket entries => exact absurd hl (h entries)

/-- When no tag bucket holds a nested bucket under the identifier, a loop that
ends without error leaves the identifier, with an empty value, in the bucket of
every tag it went through, and in every bucket that had it before. -/
theorem indexTags_complete (id : UUID) (tags : List GoString) :
    ∀ b b' : Bucket,
      (∀ (t : Bytes) (entries : Bucket), b.lookup t = some (.bucket entries) →
        ∀ nested, Bucket.lookup entries id.Bytes ≠ some (.bucket nested)) →
      indexTags id tags b = (none, b') →
      ∀ t, (t ∈ tags ∨ ∃ index : Bucket, b.lookup t = some (.bucket index) ∧
          Bucket.lookup index id.Bytes = some (.leaf [])) →
        ∃ index : Bucket, b'.lookup t = some (.bucket index) ∧
          Bucket.lookup index id.Bytes = some (.leaf []) := by
  induction tags with
  | nil =>
    intro b b' _ hrun t ht
    simp only [indexTags, Prod.mk.injEq, true_and] at hrun
    subst hrun
    rcases ht with hmem | hhas
    · cases hmem
    · exact hhas
  | cons tag rest ih =>
    intro b b' hclean hrun t ht
    unfold indexTags at hrun
    by_cases htag : tag = []
    · subst htag
      simp [Bucket.CreateBucketIfNotExists_eq] at hrun
    · rcases Bucket.CreateBucketIfNotExists_cases b tag htag with
        ⟨v, _, herr⟩ | ⟨b1, index, hok, hself, hother, hchild, _⟩
      · rw [herr] at hrun
        cases hrun
      · rw [hok] at hrun
        have hindex : ∀ nested, index.lookup id.Bytes ≠ some (.bucket nested) := by
          intro nested
          rw [hchild, Bucket.openBucket_eq]
          cases hl : b.lookup tag with
          | none => simp [Bucket.lookup_nil]
          | some node =>
            cases node with
            | leaf v => simp [Bucket.lookup_nil]
            | bucket entries => exact hclean tag entries hl nested
        simp only [Bucket.Put_id_of_no_bucket index id [] hindex] at hrun
        refine ih (b1.setChild tag (index.put id.Bytes (.leaf []))) b' ?_ hrun t ?_
        · intro t' entries hl nested
          by_cases ht' : t' = tag
          · subst ht'
            unfold Bucket.setChild at hl
            rw [Bucket.lookup_put_self] at hl
            cases hl
            rw [Bucket.lookup_put_self]
            intro hc
            cases hc
          · unfold Bucket.setChild at hl
            rw [Bucket.lookup_put_of_ne _ _ _ _ ht', hother t' ht'] at hl
            exact hclean t' entries hl nested
        · by_cases htt : t = tag
          · subst htt
            exact Or.inr ⟨_, Bucket.lookup_put_self _ _ _, Bucket.lookup_put_self _ _ _⟩
          · rcases ht with hmem | ⟨index0, hl0, hid0⟩
            · rcases List.mem_cons.mp hmem with h | h
              · exact absurd h htt
              · exact Or.inl h
            · refine Or.inr ⟨index0, ?_, hid0⟩
              unfold Bucket.setChild
              rw [Bucket.lookup_put_of_ne _ _ _ _ htt, hother t htt]
              exact hl0

/-! ## The tag index holds plain values only -/

/-- The loop over the tags never puts a nested bucket into a tag bucket. -/
theorem indexTags_plain (id : UUID) (tags : List GoString) :
    ∀ (b b' : Bucket) (e : Option Error),
      (∀ (t : Bytes) (entries : Bucket), b.lookup t = some (.bucket entries) →
        ∀ (k : Bytes) (nested : Bucket), Bucket.lookup entries k ≠ some (.bucket nested)) →
      indexTags id tags b = (e, b') →
      ∀ (t : Bytes) (entries : Bucket), b'.lookup t = some (.bucket entries) →
        ∀ (k : Bytes) (nested : Bucket), Bucket.lookup entries k ≠ some (.bucket nested) := by
  induction tags with
  | nil =>
    intro b b' e hplain hrun
    simp only [indexTags, Prod.mk.injEq] at hrun
    obtain ⟨_, hb⟩ := hrun
    subst hb
    exact hplain
  | cons tag rest ih =>
    intro b b' e hplain hrun
    unfold indexTags at hrun
    by_cases htag : tag = []
    · subst htag
      simp only [Bucket.CreateBucketIfNotExists_eq, if_true, Prod.mk.injEq] at hrun
      obtain ⟨_, hb⟩ := hrun
      subst hb
      exact hplain
    · rcases Bucket.CreateBucketIfNotExists_cases b tag htag with
        ⟨v, _, herr⟩ | ⟨b1, index, hok, hself, hother, hchild, _⟩
      · rw [herr] at hrun
        simp only [Prod.mk.injEq] at hrun
        obtain ⟨_, hb⟩ := hrun
        subst hb
        exact hplain
      · rw [hok] at hrun
        have hindex : ∀ (k : Bytes) (nested : Bucket),
            index.lookup k ≠ some (.bucket nested) := by
          intro k nested
          rw [hchild, Bucket.openBucket_eq]
          cases hl : b.lookup tag with
          | none => simp [Bucket.lookup_nil]
          | some node =>
            cases node with
            | leaf v => simp [Bucket.lookup_nil]
            | bucket entries => exact hplain tag entries hl k nested
        have hplain1 : ∀ (t : Bytes) (entries : Bucket), b1.lookup t = some (.bucket entries) →
            ∀ (k : Bytes) (nested : Bucket),
              Bucket.lookup entries k ≠ some (.bucket nested) := by
          intro t entries hl k nested
          by_cases ht : t = tag
          · subst ht
            rw [hself] at hl
            cases hl
            exact hindex k nested
          · rw [hother t ht] at hl
            exact hplain t entries hl k nested
        rcases Bucket.Put_id_cases index id [] with ⟨err, hput⟩ | hput
        · simp only [hput] at hrun
          exact ih b1 b' e hplain1 hrun
        · simp only [hput] at hrun
          refine ih _ b' e ?_ hrun
          intro t entries hl k nested
          by_cases ht : t = tag
          · subst ht
            unfold Bucket.setChild at hl
            rw [Bucket.lookup_put_self] at hl
            cases hl
            by_cases hk : k = id.Bytes
            · subst hk
              rw [Bucket.lookup_put_self]
              intro hc
              cases hc
            · rw [Bucket.lookup_put_of_ne _ _ _ _ hk]
              exact hindex k nested
          · unfold Bucket.setChild at hl
            rw [Bucket.lookup_put_of_ne _ _ _ _ ht] at hl
            exact hplain1 t entries hl k nested

/-- The empty store has a plain tag index. -/
theorem indexPlain_emptyDB : emptyDB.indexPlain := by
  intro key t entries h
  cases h

/-- Whatever `Insert` returns, a plain tag index stays plain: the package puts
plain values only. -/
theorem Insert_preserves_indexPlain (adage : Adage) (db db' : DB) (id : UUID) (c c' : Codec)
    (e : Option Error) (hplain : db.indexPlain)
    (h : Insert adage db id c = .ret ((e, db'), c')) : db'.indexPlain := by
  cases e with
  | some err =>
    have hdb : db' = db := by
      unfold Insert Update at h
      split at h
      · cases h
      · cases h
        rfl
      · cases h
      · cases h
    rw [hdb]
    exact hplain
  | none =>
    obtain ⟨tx, data, dataBucket, tagsBucket, _, _, _, hloop, hdb⟩ :=
      Insert_success adage db db' id c c' h
    subst hdb
    have htags : ((tx.setChild tagsKey tagsBucket).openBucket tagsKey).getD [] = tagsBucket := by
      rw [Bucket.openBucket_eq]
      unfold Bucket.setChild
      rw [Bucket.lookup_put_self]
      rfl
    intro key t entries hl nested
    rw [htags] at hl
    exact indexTags_plain id adage.tagList _ tagsBucket none
      (fun t entries hl k nested => hplain k t entries hl nested) hloop t entries hl key nested

/-- In a store with a plain tag index no identifier is in use as a bucket name
of the index. -/
theorem indexFreeAt_of_indexPlain (db : DB) (key : Bytes) (hplain : db.indexPlain) :
    db.indexFreeAt key :=
  hplain key

/-! ## Where the mutex is released -/

/-- A call to `DeserializeAdage` with the mutex free returns with the mutex
free, whatever the bytes and whether decoding fails or not. -/
theorem DeserializeAdage_releases (data : Wire) (c : Codec) (hfree : c.adageMutex = false) :
    ∃ r c', DeserializeAdage data c = .ret (r, c') ∧ c'.adageMutex = false := by
  unfold DeserializeAdage
  rw [hfree]
  exact ⟨_, _, rfl, rfl⟩

/-- A call to `Serialize` that returns bytes returns with the mutex free. -/
theorem Serialize_releases_on_success (a : Adage) (c c' : Codec) (data : Option Wire)
    (h : Serialize a c = .ret ((data, none), c')) : c'.adageMutex = false := by
  unfold Serialize at h
  split at h
  · cases h
  · dsimp only at h
    split at h
    · cases h
    · cases h
      rfl

/-- A call to `Serialize` that returns an error returns with the mutex held. -/
theorem Serialize_holds_on_error (a : Adage) (c c' : Codec) (data : Option Wire) (e : Error)
    (h : Serialize a c = .ret ((data, some e), c')) : c'.adageMutex = true := by
  unfold Serialize at h
  split at h
  · cases h
  · dsimp only at h
    split at h
    · cases h
      rfl
    · cases h

/-! ## Where the pooled bytes stop being self-contained -/

/-- Once the shared encoder has sent the `Adage` type, the bytes `Serialize`
returns carry no type definition and `DeserializeAdageDirect` rejects them. -/
theorem Serialize_after_first_not_self_contained (a : Adage) (c c' : Codec) (data : Wire)
    (hsent : TypeId.adage ∈ c.adageEncoder.sent)
    (h : Serialize a c = .ret ((some data, none), c')) :
    DeserializeAdageDirect data = (Adage.zero, some .badType) := by
  have hfree : c.adageMutex = false := by
    by_contra hheld
    rw [Serialize_blocked a c (by simpa using hheld)] at h
    cases h
  by_cases henc : a.encodable
  · obtain ⟨f, hf, _⟩ := decodeStruct_encodeStruct a henc
    rw [Serialize_types_sent a f c hf hfree hsent] at h
    simp only [Outcome.ret.injEq, Prod.mk.injEq, Option.some.injEq, and_true] at h
    obtain ⟨hdata, _⟩ := h
    subst hdata
    rfl
  · obtain ⟨e, he⟩ := encodeStruct_error_of_not_encodable a henc
    obtain ⟨c1, hs1⟩ := Serialize_of_encodeStruct_error a e c he hfree
    rw [h] at hs1
    cases hs1

/-- A record whose `Tags` is not an empty non-nil slice and whose timestamps
are UTC or have no negative seconds part in their zone offset is received as it
was sent. -/
theorem Adage.received_eq_self (a : Adage) (htags : a.Tags ≠ some [])
    (hcreated : a.CreatedAt.keepsOffset = true) (hupdated : a.UpdatedAt.keepsOffset = true) :
    a.received = a := by
  obtain ⟨ID, Body, Tags, Author, Source, CreatedAt, UpdatedAt⟩ := a
  simp only [Adage.received, Time.received_of_keepsOffset CreatedAt hcreated,
    Time.received_of_keepsOffset UpdatedAt hupdated]
  rcases Tags with _ | ⟨_ | ⟨x, xs⟩⟩
  · rfl
  · exact absurd rfl htags
  · rfl

/-! ## Properties of the codec -/

/-- C1, amended: for every record whose two timestamps `MarshalBinary` accepts,
`SerializeDirect` followed by `DeserializeAdageDirect` succeeds, and so does
`Serialize` followed by `DeserializeAdage` whenever the shared encoder and
decoder are in step with the mutex free (as at program start), which leaves
them in step. Both return the record as received: every field as it was, except
that a `Tags` of length zero comes back nil and that a timestamp whose zone
offset has a negative seconds part comes back with another offset. A record
whose `Tags` is not an empty non-nil slice and whose timestamps are UTC or have
no negative seconds part in their zone offset comes back equal. -/
theorem round_trip (r : Adage) (henc : r.encodable) :
    (∃ data, SerializeDirect r = (some data, none) ∧
        DeserializeAdageDirect data = (r.received, none)) ∧
      (∀ c : Codec, c.inStep →
        ∃ data c1 c2, Serialize r c = .ret ((some data, none), c1) ∧
          DeserializeAdage data c1 = .ret ((r.received, none), c2) ∧ c2.inStep) ∧
      r.received.ID = r.ID ∧ r.received.Body = r.Body ∧ r.received.Author = r.Author ∧
      r.received.Source = r.Source ∧
      (r.Tags ≠ some [] → r.received.Tags = r.Tags) ∧
      (r.CreatedAt.keepsOffset = true → r.received.CreatedAt = r.CreatedAt) ∧
      (r.UpdatedAt.keepsOffset = true → r.received.UpdatedAt = r.UpdatedAt) := by
  obtain ⟨f, hf, hdec⟩ := decodeStruct_encodeStruct r henc
  refine ⟨⟨_, SerializeDirect_of_encodeStruct r f hf, ?_⟩, ?_, rfl, rfl, rfl, rfl, ?_,
    Time.received_of_keepsOffset r.CreatedAt, Time.received_of_keepsOffset r.UpdatedAt⟩
  · rw [DeserializeAdageDirect_self_contained, hdec]
  · intro c hstep
    have := pooled_round_trip r f c hf hstep
    rwa [hdec] at this
  · intro htags
    obtain ⟨ID, Body, Tags, Author, Source, CreatedAt, UpdatedAt⟩ := r
    rcases Tags with _ | ⟨_ | ⟨x, xs⟩⟩
    · rfl
    · exact absurd rfl htags
    · rfl

/-- The round trip of the record of the concrete scenario. -/
theorem round_trip_witness :
    haste.encodable ∧
      ((∃ data, SerializeDirect haste = (some data, none) ∧
          DeserializeAdageDirect data = (haste.received, none)) ∧
        (∀ c : Codec, c.inStep →
          ∃ data c1 c2, Serialize haste c = .ret ((some data, none), c1) ∧
            DeserializeAdage data c1 = .ret ((haste.received, none), c2) ∧ c2.inStep) ∧
        haste.received.ID = haste.ID ∧ haste.received.Body = haste.Body ∧
        haste.received.Author = haste.Author ∧ haste.received.Source = haste.Source ∧
        (haste.Tags ≠ some [] → haste.received.Tags = haste.Tags) ∧
        (haste.CreatedAt.keepsOffset = true → haste.received.CreatedAt = haste.CreatedAt) ∧
        (haste.UpdatedAt.keepsOffset = true → haste.received.UpdatedAt = haste.UpdatedAt)) :=
  ⟨⟨rfl, rfl⟩, round_trip haste ⟨rfl, rfl⟩⟩

/-! ## Properties of `GetAdage` -/

/-- C3, amended: for every store state in which the bucket "adages" does not
exist, `GetAdage` returns the nil record together with the nil error, and
leaves the codec variables untouched. -/
theorem GetAdage_missing_bucket (db : DB) (draw : Nat) (c : Codec)
    (h : db.openBucket adagesKey = none) :
    GetAdage db draw c = .ret ((none, none), c) := by
  simp [GetAdage, View, h]

/-- The bucket "adages" is missing from a database that holds only "tags". -/
theorem GetAdage_missing_bucket_witness :
    nestedIndexDB.openBucket adagesKey = none ∧
      GetAdage nestedIndexDB 5 Codec.init = .ret ((none, none), Codec.init) :=
  ⟨rfl, GetAdage_missing_bucket nestedIndexDB 5 Codec.init rfl⟩

/-! ## Properties of `Insert` -/

/-- Where the faulty tag does undo the insertion: for every store state and
every record whose `Tags` contain, at any position, a tag whose sub-bucket
cannot be created, `Insert` called with the codec mutex free returns an error,
and whatever `Insert` returns is an error next to the store it was given. -/
theorem Insert_faulty_tag_rolls_back (adage : Adage) (db : DB) (id : UUID) (tag : GoString)
    (hmem : tag ∈ adage.tagList) (hbad : faultyTag db tag = true) (c : Codec) :
    (c.adageMutex = false → ∃ err c', Insert adage db id c = .ret ((some err, db), c')) ∧
      ∀ (e : Option Error) (db' : DB) (c' : Codec),
        Insert adage db id c = .ret ((e, db'), c') → e ≠ none ∧ db' = db := by
  have hret : c.adageMutex = false →
      ∃ err c', Insert adage db id c = .ret ((some err, db), c') := by
    intro hfree
    unfold Insert Update
    rcases insertTx_cases adage id c db hfree with ⟨e, tx, c', h⟩ | ⟨tx, data, c', _, _, _, h⟩
    · rw [h]
      exact ⟨e, c', rfl⟩
    · obtain ⟨e, b, hloop⟩ :=
        indexTags_of_faulty id adage.tagList tag _ hmem ((faultyTag_iff db tag).mp hbad)
      rw [h, hloop]
      exact ⟨e, c', rfl⟩
  refine ⟨hret, ?_⟩
  intro e db' c' h
  by_cases hfree : c.adageMutex = false
  · obtain ⟨err, c1, h1⟩ := hret hfree
    rw [h1] at h
    cases h
    exact ⟨by simp, rfl⟩
  · have hheld : c.adageMutex = true := by simpa using hfree
    unfold Insert Update at h
    rcases insertTx_of_held adage id c db hheld with hb | ⟨e1, tx, c1, hr⟩
    · rw [hb] at h
      cases h
    · rw [hr] at h
      cases h
      exact ⟨by simp, rfl⟩

/-- C6: after `Insert` of a record whose `CreatedAt` cannot be marshalled has
returned its error, the codec mutex is held, and `Insert` of a record whose
`Tags` contain the empty string, a tag whose sub-bucket cannot be created,
never returns: it returns no error. -/
theorem Insert_faulty_tag_blocks :
    Insert minuteWest hasteDB sampleID Codec.init =
        .ret ((some .zoneUnexpectedOffset, hasteDB), heldCodec) ∧
      ([] : GoString) ∈ emptyTagLast.tagList ∧
      faultyTag hasteDB [] = true ∧
      Insert emptyTagLast hasteDB sampleID heldCodec = .blocked :=
  ⟨rfl, by decide, rfl, rfl⟩

/-- C7, the claim fails: the value `Insert` stores under the generated
identifier decodes to a record whose `ID` is the zero value the caller passed,
not the identifier. -/
theorem Insert_identity_counterexample :
    (Insert haste emptyDB sampleID Codec.init).value?.map (fun r => r.1) = some (none, hasteDB) ∧
      (hasteDB.openBucket adagesKey).bind (fun b => b.Get sampleID.Bytes) =
        some (adageTypeDefs ++ [hasteValue]) ∧
      DeserializeAdageDirect (adageTypeDefs ++ [hasteValue]) = (haste, none) ∧
      haste.ID = UUID.Nil ∧ haste.ID ≠ sampleID :=
  ⟨rfl, rfl, rfl, rfl, by decide⟩

/-- C7, amended: for every record r, after `Insert(r)` succeeds with generated
identifier id, the bucket "adages" holds under key id the bytes `Serialize(r)`
returned; when the shared encoder and decoder were in step at the call,
`DeserializeAdage` decodes those bytes to r as received: `ID` is the one r
carried before the call and not id, `Body`, `Author` and `Source` are those of
r, `Tags` are those of r unless they are empty and not nil, and a timestamp is
that of r when it is UTC or has no negative seconds part in its zone offset. -/
theorem Insert_stores_record (adage : Adage) (db db' : DB) (id : UUID) (c c' : Codec)
    (h : Insert adage db id c = .ret ((none, db'), c')) :
    ∃ data, Serialize adage c = .ret ((some data, none), c') ∧
      (db'.openBucket adagesKey).bind (fun b => b.Get id.Bytes) = some data ∧
      (c.inStep → ∃ c2, DeserializeAdage data c' = .ret ((adage.received, none), c2)) ∧
      adage.received.ID = adage.ID ∧ adage.received.Body = adage.Body ∧
      adage.received.Author = adage.Author ∧ adage.received.Source = adage.Source ∧
      (adage.Tags ≠ some [] → adage.received.Tags = adage.Tags) ∧
      (adage.CreatedAt.keepsOffset = true → adage.received.CreatedAt = adage.CreatedAt) ∧
      (adage.UpdatedAt.keepsOffset = true → adage.received.UpdatedAt = adage.UpdatedAt) := by
  obtain ⟨tx, data, dataBucket, tagsBucket, hfree, hs, hl, _, hdb⟩ :=
    Insert_success adage db db' id c c' h
  subst hdb
  refine ⟨data, hs, ?_, ?_, rfl, rfl, rfl, rfl, ?_,
    Time.received_of_keepsOffset adage.CreatedAt, Time.received_of_keepsOffset adage.UpdatedAt⟩
  · have hl' : (tx.setChild tagsKey tagsBucket).lookup adagesKey =
        some (.bucket (Bucket.put dataBucket id.Bytes (.leaf data))) := by
      unfold Bucket.setChild
      rw [Bucket.lookup_put_of_ne _ _ _ _ adagesKey_ne_tagsKey]
      exact hl
    rw [Bucket.openBucket_eq, hl']
    show Bucket.Get _ _ = _
    rw [Bucket.Get_eq, Bucket.lookup_put_self]
  · intro hstep
    by_cases henc : adage.encodable
    · obtain ⟨f, hf, hdec⟩ := decodeStruct_encodeStruct adage henc
      obtain ⟨data1, c1', c2, hs1, hd1, _⟩ := pooled_round_trip adage f c hf hstep
      rw [hs] at hs1
      simp only [Outcome.ret.injEq, Prod.mk.injEq, Option.some.injEq, and_true] at hs1
      obtain ⟨hdata, hc1⟩ := hs1
      subst hdata hc1
      exact ⟨c2, by rw [hd1, hdec]⟩
    · obtain ⟨e, he⟩ := encodeStruct_error_of_not_encodable adage henc
      obtain ⟨c1', hs1⟩ := Serialize_of_encodeStruct_error adage e c he hfree
      rw [hs] at hs1
      cases hs1
  · intro htags
    obtain ⟨ID, Body, Tags, Author, Source, CreatedAt, UpdatedAt⟩ := adage
    rcases Tags with _ | ⟨_ | ⟨x, xs⟩⟩
    · rfl
    · exact absurd rfl htags
    · rfl

/-- The first `Insert` of a process, of the record of the concrete scenario. -/
theorem Insert_stores_record_witness :
    Insert haste emptyDB sampleID Codec.init =
        .ret ((none, hasteDB), encoderAhead (adageTypeDefs ++ [hasteValue])) ∧
      ∃ data, Serialize haste Codec.init =
          .ret ((some data, none), encoderAhead (adageTypeDefs ++ [hasteValue])) ∧
        (hasteDB.openBucket adagesKey).bind (fun b => b.Get sampleID.Bytes) = some data ∧
        (Codec.init.inStep → ∃ c2,
          DeserializeAdage data (encoderAhead (adageTypeDefs ++ [hasteValue])) =
            .ret ((haste.received, none), c2)) ∧
        haste.received.ID = haste.ID ∧ haste.received.Body = haste.Body ∧
        haste.received.Author = haste.Author ∧ haste.received.Source = haste.Source ∧
        (haste.Tags ≠ some [] → haste.received.Tags = haste.Tags) ∧
        (haste.CreatedAt.keepsOffset = true → haste.received.CreatedAt = haste.CreatedAt) ∧
        (haste.UpdatedAt.keepsOffset = true → haste.received.UpdatedAt = haste.UpdatedAt) :=
  ⟨rfl, Insert_stores_record haste emptyDB hasteDB sampleID Codec.init _ rfl⟩

/-- C8: for every store state and every record r, if `Insert(r)` returns nil
with generated identifier id, an identifier that no bucket of the tag index
already uses as the name of a nested bucket, then for every tag t in r.Tags
(duplicates included) the bucket "tags"/t exists and contains key id with an
empty value, and the bucket "adages" contains key id. -/
theorem Insert_index_complete (adage : Adage) (db db' : DB) (id : UUID) (c c' : Codec)
    (hfresh : db.indexFreeAt id.Bytes)
    (h : Insert adage db id c = .ret ((none, db'), c')) :
    (∀ t ∈ adage.tagList, ∃ tags index : Bucket, db'.openBucket tagsKey = some tags ∧
        tags.openBucket t = some index ∧ id.Bytes ∈ index.keys ∧
        index.Get id.Bytes = some []) ∧
      ∃ primary : Bucket, db'.openBucket adagesKey = some primary ∧
        id.Bytes ∈ primary.keys := by
  obtain ⟨tx, data, dataBucket, tagsBucket, _, _, hl, hloop, hdb⟩ :=
    Insert_success adage db db' id c c' h
  subst hdb
  constructor
  · intro t ht
    obtain ⟨index, hlt, hid⟩ :=
      indexTags_complete id adage.tagList _ tagsBucket hfresh hloop t (Or.inl ht)
    refine ⟨tagsBucket, index, ?_, ?_, Bucket.mem_keys_of_lookup index _ _ hid, ?_⟩
    · rw [Bucket.openBucket_eq]
      unfold Bucket.setChild
      rw [Bucket.lookup_put_self]
    · rw [Bucket.openBucket_eq, hlt]
    · rw [Bucket.Get_eq, hid]
  · refine ⟨Bucket.put dataBucket id.Bytes (.leaf data), ?_,
      Bucket.mem_keys_of_lookup _ _ _ (Bucket.lookup_put_self dataBucket id.Bytes _)⟩
    rw [Bucket.openBucket_eq]
    unfold Bucket.setChild
    rw [Bucket.lookup_put_of_ne _ _ _ _ adagesKey_ne_tagsKey, hl]

/-- The index after the first `Insert` of a process, of the record of the
concrete scenario, into the empty store. -/
theorem Insert_index_complete_witness :
    emptyDB.indexFreeAt sampleID.Bytes ∧
      Insert haste emptyDB sampleID Codec.init =
        .ret ((none, hasteDB), encoderAhead (adageTypeDefs ++ [hasteValue])) ∧
      ((∀ t ∈ haste.tagList, ∃ tags index : Bucket, hasteDB.openBucket tagsKey = some tags ∧
          tags.openBucket t = some index ∧ sampleID.Bytes ∈ index.keys ∧
          index.Get sampleID.Bytes = some []) ∧
        ∃ primary : Bucket, hasteDB.openBucket adagesKey = some primary ∧
          sampleID.Bytes ∈ primary.keys) :=
  ⟨indexPlain_emptyDB sampleID.Bytes, rfl,
    Insert_index_complete haste emptyDB hasteDB sampleID Codec.init _
      (indexPlain_emptyDB sampleID.Bytes) rfl⟩

/-! ## Evaluations on concrete inputs -/

/-- C3, the claim fails: on a database without the bucket "adages", `GetAdage`
returns the nil record together with the nil error. -/
theorem GetAdage_missing_bucket_counterexample :
    emptyDB.openBucket adagesKey = none ∧
      GetAdage emptyDB 0 Codec.init = .ret ((none, none), Codec.init) :=
  ⟨rfl, rfl⟩

/-- C4: on a database whose bucket "adages" exists and holds no key, `GetAdage`
panics in `rand.Intn(0)`, whatever the generator and the codec state. -/
theorem GetAdage_empty_bucket_faults (draw : Nat) (c : Codec) :
    emptyAdagesDB.openBucket adagesKey = some [] ∧ GetAdage emptyAdagesDB draw c = .fault :=
  ⟨rfl, rfl⟩

/-- C10: `Serialize` of a record whose `CreatedAt` cannot be marshalled, started
with the mutex free, returns the error with the mutex still held, and the next
`Serialize` and `DeserializeAdage` never return. -/
theorem Serialize_error_keeps_mutex :
    Serialize minuteWest Codec.init =
        .ret ((none, some .zoneUnexpectedOffset),
          { encoderAhead adageTypeDefs with adageMutex := true }) ∧
      Serialize haste { encoderAhead adageTypeDefs with adageMutex := true } = .blocked ∧
      DeserializeAdage [] { encoderAhead adageTypeDefs with adageMutex := true } = .blocked :=
  ⟨rfl, rfl, rfl⟩

/-- C2: the second `Serialize` on the shared encoder returns bytes without type
definitions, which `DeserializeAdageDirect` rejects, and the second
`DeserializeAdage` of bytes from `SerializeDirect` rejects their type
definitions as duplicates. -/
theorem pooled_and_direct_not_interchangeable :
    Serialize haste Codec.init =
        .ret ((some (adageTypeDefs ++ [hasteValue]), none),
          encoderAhead (adageTypeDefs ++ [hasteValue])) ∧
      Serialize haste (encoderAhead (adageTypeDefs ++ [hasteValue])) =
        .ret ((some [hasteValue], none), encoderAhead [hasteValue]) ∧
      DeserializeAdageDirect [hasteValue] = (Adage.zero, some .badType) ∧
      SerializeDirect haste = (some (adageTypeDefs ++ [hasteValue]), none) ∧
      DeserializeAdage (adageTypeDefs ++ [hasteValue]) Codec.init =
        .ret ((haste, none), decoderTaught [] []) ∧
      DeserializeAdage (adageTypeDefs ++ [hasteValue]) (decoderTaught [] []) =
        .ret ((Adage.zero, some .duplicateType),
          decoderTaught (adageTypeDefs.tail ++ [hasteValue]) []) :=
  ⟨rfl, rfl, rfl, rfl, rfl, rfl⟩

/-- On a database whose bucket "adages" holds one key, `GetAdage` decodes the
value under that key, whatever the generator returns. -/
theorem GetAdage_of_single_key (db : DB) (bucket : Bucket) (k : Bytes) (draw : Nat) (c : Codec)
    (hb : db.openBucket adagesKey = some bucket) (hk : bucket.keys = [k]) :
    GetAdage db draw c =
      match DeserializeAdage ((bucket.Get k).getD []) c with
      | .ret ((adage, err), c) => .ret ((some adage, err), c)
      | .fault => .fault
      | .blocked => .blocked := by
  simp [GetAdage, View, hb, hk, randIntn, Nat.mod_one]

/-- C9: on the store that holds only the record of the concrete scenario,
inserted by the first `Insert` of the process, the first `GetAdage` returns the
record and the second one returns a zero record with the error "duplicate type
received", whatever the generator returns. -/
theorem GetAdage_second_call_fails (draw : Nat) :
    Insert haste emptyDB sampleID Codec.init =
        .ret ((none, hasteDB), encoderAhead (adageTypeDefs ++ [hasteValue])) ∧
      GetAdage hasteDB draw (encoderAhead (adageTypeDefs ++ [hasteValue])) =
        .ret ((some haste, none), decoderTaught [] adageTypes) ∧
      GetAdage hasteDB draw (decoderTaught [] adageTypes) =
        .ret ((some Adage.zero, some .duplicateType),
          decoderTaught (adageTypeDefs.tail ++ [hasteValue]) adageTypes) :=
  ⟨rfl,
    (GetAdage_of_single_key hasteDB _ sampleID.Bytes draw _ rfl rfl).trans rfl,
    (GetAdage_of_single_key hasteDB _ sampleID.Bytes draw _ rfl rfl).trans rfl⟩

/-- C5: with a nested bucket under the identifier in "tags"/"wisdom",
`index.Put` fails for the tag "wisdom", yet the loop goes on to write the entry
of "caution" and `Insert` returns nil and commits. -/
theorem Insert_ignores_index_error :
    (nestedIndexDB.openBucket tagsKey).bind (fun tags => tags.openBucket wisdom) =
        some [(sampleID.Bytes, .bucket [])] ∧
      (Bucket.Put [(sampleID.Bytes, .bucket [])] sampleID.Bytes []).toOption = none ∧
      Insert haste nestedIndexDB sampleID Codec.init =
        .ret ((none, nestedIndexAfter), encoderAhead (adageTypeDefs ++ [hasteValue])) :=
  ⟨rfl, rfl, rfl⟩

/-- The index is not complete without the condition on the identifier: with a
nested bucket under the identifier in "tags"/"wisdom", `Insert` returns nil and
the bucket "tags"/"wisdom" of the committed database holds no value, empty or
not, under the identifier. -/
theorem Insert_index_incomplete :
    ((Insert haste nestedIndexDB sampleID Codec.init).value?.map (fun r => r.1.1)) = some none ∧
      wisdom ∈ haste.tagList ∧
      ((Insert haste nestedIndexDB sampleID Codec.init).value?.bind (fun r =>
          (r.1.2.openBucket tagsKey).bind (fun tags => tags.openBucket wisdom))).map
        (fun index => index.Get sampleID.Bytes) = some none :=
  ⟨rfl, by decide, rfl⟩

/-- C1, the claim fails: a record with an empty, non-nil `Tags` comes back from
either variant with a nil `Tags`; a record whose `CreatedAt` lies one minute
west of UTC is not serialized at all; and a record whose `CreatedAt` lies 150
seconds west of UTC comes back 106 seconds east of it. -/
theorem round_trip_counterexample :
    emptyTags.Tags = some [] ∧
      (DeserializeAdageDirect ((SerializeDirect emptyTags).1.getD [])).1.Tags = none ∧
      ((Serialize emptyTags Codec.init).value?.bind (fun s =>
          (DeserializeAdage (s.1.1.getD []) s.2).value?)).map (fun d => d.1.1.Tags) = some none ∧
      SerializeDirect minuteWest = (none, some .zoneUnexpectedOffset) ∧
      (Serialize minuteWest Codec.init).value?.map (fun s => s.1) =
        some (none, some .zoneUnexpectedOffset) ∧
      secondsWest.CreatedAt.loc = some (-150) ∧
      (SerializeDirect secondsWest).2 = none ∧
      (DeserializeAdageDirect ((SerializeDirect secondsWest).1.getD [])).1.CreatedAt.loc =
        some 106 := by
  decide

end Storage
